import Mathlib

/-!
# Verification of the `logger` rolling-file writer

This file gives a shallow embedding of the buffered asynchronous rolling-file
writer of the repository (`rolling.go`) and proves or refutes the spec claims
about it.  The Go code is modelled as follows:

* byte buffers are `List Nat`;
* the file system is an association list from paths to contents, with a second
  association list `synced` holding the contents persisted by `file.Sync()`;
* the single worker goroutine's flush (`flushRoutine`'s `flush` closure) is
  modelled as a sequential function, which is faithful for the sequential
  write/sync/close histories the claims quantify over;
* underlying I/O failures (MkdirAll / OpenFile / write) are modelled by a
  boolean oracle `ioFail` passed to the flush path: when true, `roll` fails at
  its first I/O step (directory creation, after the fragment was recorded but
  before the file is reopened), exactly as a failing `os.MkdirAll` would;
* `fmt.Sprintf "%02d"/"%04d"`, Go `time.Format` for the five layout constants
  of the repository, `filepath.Split`, `filepath.Join` and `filepath.Clean`
  (Unix rules) and `strings.TrimSuffix` are modelled on `List Char`.
-/

/-- Decimal digit character, as produced by `fmt.Sprintf "%d"` for one digit. -/
def digitChar (n : Nat) : Char :=
  if n = 0 then '0' else if n = 1 then '1' else if n = 2 then '2'
  else if n = 3 then '3' else if n = 4 then '4' else if n = 5 then '5'
  else if n = 6 then '6' else if n = 7 then '7' else if n = 8 then '8'
  else if n = 9 then '9' else '?'

/-- `fmt.Sprintf "%02d" n` : two-digit zero padded decimal (full decimal when
`n ≥ 100`, as Go prints all digits then). -/
def pad2L (n : Nat) : List Char :=
  if n < 100 then [digitChar (n / 10), digitChar (n % 10)] else (toString n).data

/-- `fmt.Sprintf "%04d" n` : four-digit zero padded decimal. -/
def pad4L (n : Nat) : List Char :=
  if n < 10000 then
    [digitChar (n / 1000), digitChar (n / 100 % 10), digitChar (n / 10 % 10),
     digitChar (n % 10)]
  else (toString n).data

/-- A wall-clock instant, as read from Go's `time.Now()` accessors. -/
structure GoTime where
  year : Nat
  month : Nat
  day : Nat
  hour : Nat
  minute : Nat
  second : Nat
deriving DecidableEq, Repr

-- The five rolling layout constants of `rolling.go`.
def MonthlyRolling : String := "200601"
def DailyRolling : String := "20060102"
def HourlyRolling : String := "2006010215"
def MinutelyRolling : String := "200601021504"
def SecondlyRolling : String := "20060102150405"

/-- Go `now.Format layout` for the five layout constants used by the
repository and for the empty layout (a layout with no reference elements is
printed verbatim, so the empty layout yields `""`).  Other layouts are not
used by the repository and are returned verbatim. -/
def fragL (layout : String) (t : GoTime) : List Char :=
  if layout = "" then []
  else if layout = MonthlyRolling then pad4L t.year ++ pad2L t.month
  else if layout = DailyRolling then pad4L t.year ++ pad2L t.month ++ pad2L t.day
  else if layout = HourlyRolling then
    pad4L t.year ++ pad2L t.month ++ pad2L t.day ++ pad2L t.hour
  else if layout = MinutelyRolling then
    pad4L t.year ++ pad2L t.month ++ pad2L t.day ++ pad2L t.hour ++ pad2L t.minute
  else if layout = SecondlyRolling then
    pad4L t.year ++ pad2L t.month ++ pad2L t.day ++ pad2L t.hour ++
      pad2L t.minute ++ pad2L t.second
  else layout.data

/-- `now.Format layout` as a `String` (the value `roll` stores in `fileFrag`). -/
def timeFormat (layout : String) (t : GoTime) : String :=
  String.mk (fragL layout t)

/-- Split a character list on `'/'` (the component decomposition used by
`filepath.Clean`).  `splitCompsL "a/b" = ["a", "b"]`, empty components are
kept: `splitCompsL "/a" = ["", "a"]`. -/
def splitCompsL : List Char → List (List Char)
  | [] => [[]]
  | c :: rest =>
    if c = '/' then [] :: splitCompsL rest
    else
      match splitCompsL rest with
      | [] => [[c]]
      | t :: ts => (c :: t) :: ts

/-- Join components with `'/'` separators. -/
def renderCompsL : List (List Char) → List Char
  | [] => []
  | [c] => c
  | c :: cs => c ++ '/' :: renderCompsL cs

/-- One step of `filepath.Clean`'s element processing: skip empty and `"."`
elements, let `".."` backtrack (except over a leading `".."`, or at the root
of a rooted path), push everything else.  The accumulator holds the output
components in reverse order. -/
def pushComp (rooted : Bool) (acc : List (List Char)) (c : List Char) :
    List (List Char) :=
  if c = [] ∨ c = ['.'] then acc
  else if c = ['.', '.'] then
    match acc with
    | [] => if rooted then [] else [['.', '.']]
    | a :: rest => if a = ['.', '.'] then c :: a :: rest else rest
  else c :: acc

/-- Go `path/filepath.Clean` for Unix paths, on character lists. -/
def cleanL (s : List Char) : List Char :=
  if s = [] then ['.']
  else
    let rooted := s.head? = some '/'
    let out := ((splitCompsL s).foldl (pushComp rooted) []).reverse
    if out = [] then (if rooted then ['/'] else ['.'])
    else (if rooted then ['/'] else []) ++ renderCompsL out

/-- Go `filepath.Join a b` (empty elements are ignored, the result is
Cleaned). -/
def goJoinL (a b : List Char) : List Char :=
  if a = [] then (if b = [] then [] else cleanL b)
  else cleanL (a ++ '/' :: b)

/-- Go `filepath.Split`: everything up to and including the final slash, and
the remainder. -/
def goSplitL (p : List Char) : List Char × List Char :=
  let rf := p.reverse.takeWhile (fun c => c ≠ '/')
  (p.take (p.length - rf.length), rf.reverse)

def goSplit (p : String) : String × String :=
  (String.mk (goSplitL p.data).1, String.mk (goSplitL p.data).2)

def goJoin (a b : String) : String := String.mk (goJoinL a.data b.data)

/-- Go `strings.TrimSuffix`. -/
def goTrimSuffix (s suffix : String) : String :=
  if suffix.data.isSuffixOf s.data then
    String.mk (s.data.take (s.data.length - suffix.data.length))
  else s

-- Constants of `rolling.go`.
def logPageCacheByteSize : Nat := 4096
def logPageNumber : Nat := 2
def defaultFileExt : String := "log"
/-- Capacity of the full-page channel, `make(chan *bytes.Buffer, logPageNumber+1)`. -/
def fullBufferCap : Nat := logPageNumber + 1
/-- The global pool size, `newBufferPool(500)`. -/
def bpoolSize : Nat := 500

/-- `getBuffer` of the buffer pool: fails (returns the nil sentinel) when the
outstanding count exceeds the configured size, otherwise increments the
outstanding count; returns the new count on success.  (`bufferPool.count` is
an `int64`, hence `Int`.) -/
def getBuffer (size : Nat) (count : Int) : Option Int :=
  if count > (size : Int) then none else some (count + 1)

/-- The file-path part of `RollingFile.roll`: the pure rotation-namer
computation mapping (base path, extension, rolling layout, now) to the
destination path, exactly as lines 130–224 of `rolling.go` build it
(`filepath.Split` of the base path, `fmt.Sprintf` of the dated directory and
file name, `filepath.Join`). -/
def rollPathL (baseL extL : List Char) (rolling : String) (t : GoTime) :
    List Char :=
  let dir := (goSplitL baseL).1
  let filename := (goSplitL baseL).2
  let frag := fragL rolling t
  if frag = [] then goJoinL dir (filename ++ extL)
  else
    let p :=
      if rolling = MonthlyRolling then
        (dir ++ '/' :: pad4L t.year,
         filename ++ '_' :: pad2L t.month ++ '.' :: extL)
      else if rolling = DailyRolling then
        (dir ++ '/' :: (pad4L t.year ++ pad2L t.month),
         filename ++ '_' :: pad2L t.day ++ '.' :: extL)
      else if rolling = HourlyRolling then
        (dir ++ '/' :: (pad4L t.year ++ pad2L t.month) ++ '/' :: pad2L t.day,
         filename ++ '_' :: pad2L t.hour ++ '.' :: extL)
      else if rolling = MinutelyRolling then
        (dir ++ '/' :: (pad4L t.year ++ pad2L t.month) ++ '/' :: pad2L t.day ++
           '/' :: pad2L t.hour,
         filename ++ '_' :: pad2L t.minute ++ '.' :: extL)
      else if rolling = SecondlyRolling then
        (dir ++ '/' :: (pad4L t.year ++ pad2L t.month) ++ '/' :: pad2L t.day ++
           '/' :: pad2L t.hour ++ '/' :: pad2L t.minute,
         filename ++ '_' :: pad2L t.second ++ '.' :: extL)
      else (dir, dir)
    goJoinL p.1 p.2

/-- String-level rotation namer. -/
def rollPath (base ext : String) (rolling : String) (t : GoTime) : String :=
  String.mk (rollPathL base.data ext.data rolling t)

-- ### The file system

/-- Read a file's contents (empty if absent). -/
def readFile : List (String × List Nat) → String → List Nat
  | [], _ => []
  | (q, c) :: rest, p => if q = p then c else readFile rest p

/-- Append bytes to a file (creating it if absent) — `O_APPEND` write. -/
def writeFS : List (String × List Nat) → String → List Nat →
    List (String × List Nat)
  | [], p, b => [(p, b)]
  | (q, c) :: rest, p, b =>
    if q = p then (q, c ++ b) :: rest else (q, c) :: writeFS rest p b

/-- Overwrite a file's contents (used for the `file.Sync()` snapshot). -/
def setFS : List (String × List Nat) → String → List Nat →
    List (String × List Nat)
  | [], p, b => [(p, b)]
  | (q, c) :: rest, p, b =>
    if q = p then (q, b) :: rest else (q, c) :: setFS rest p b

-- ### The RollingFile state

/-- Errors of `rolling.go`: `ErrClosedRollingFile`, `ErrBuffer`, and the
constructor's invalid-base-path error. -/
inductive RErr where
  | closed
  | buffer
  | invalidPath
deriving DecidableEq, Repr

/-- State of a `RollingFile` together with the file system it acts on and the
(global) buffer pool's outstanding count. -/
structure RollingFile where
  closed : Bool
  current : Option (List Nat)
  fullBuffer : List (List Nat)
  poolCount : Int
  basePath : String
  filePath : String
  fileFrag : String
  fileExt : String
  rolling : String
  fileOpen : Bool
  files : List (String × List Nat)
  synced : List (String × List Nat)
deriving DecidableEq, Repr

namespace RollingFile

/-- `RollingFile.roll`: recompute the fragment for `now`; if a file is open
with the same fragment, reuse it unchanged; otherwise close it, record the new
fragment and (unless I/O fails) open the file at the rotation namer's path.
Returns `false` on I/O failure (modelled at the first I/O step, directory
creation). -/
def roll (ioFail : Bool) (now : GoTime) (s : RollingFile) :
    Bool × RollingFile :=
  let suffix := timeFormat s.rolling now
  if s.fileOpen = true ∧ suffix = s.fileFrag then (true, s)
  else if ioFail then (false, { s with fileOpen := false, fileFrag := suffix })
  else (true, { s with fileOpen := true, fileFrag := suffix,
                       filePath := rollPath s.basePath s.fileExt s.rolling now })

/-- `RollingFile.writeBuffer`: skip empty buffers; roll, and on success append
the buffer's bytes to the open file — a failed roll is swallowed and the bytes
are dropped (the empty error branch of `writeBuffer`). -/
def writeBuffer (ioFail : Bool) (now : GoTime) (s : RollingFile)
    (buff : List Nat) : RollingFile :=
  if buff.length > 0 then
    match roll ioFail now s with
    | (true, s1) => { s1 with files := writeFS s1.files s1.filePath buff }
    | (false, s1) => s1
  else s

/-- `RollingFile.Write`: reject when closed; acquire a pool buffer on demand
(failing with `ErrBuffer` when the pool is exhausted); append all bytes to the
current page buffer; detach the page to the full-page channel when its length
crosses `logPageCacheByteSize`. -/
def Write (s : RollingFile) (b : List Nat) : Except RErr Nat × RollingFile :=
  if s.closed then (.error .closed, s)
  else
    let acq : Option (List Nat) × Int :=
      match s.current with
      | some c => (some c, s.poolCount)
      | none =>
        match getBuffer bpoolSize s.poolCount with
        | none => (none, s.poolCount)
        | some c' => (some [], c')
    match acq.1 with
    | none => (.error .buffer, { s with poolCount := acq.2 })
    | some c =>
      let c2 := c ++ b
      if c2.length > logPageCacheByteSize then
        (.ok b.length, { s with current := none, poolCount := acq.2,
                                fullBuffer := s.fullBuffer ++ [c2] })
      else
        (.ok b.length, { s with current := some c2, poolCount := acq.2 })

/-- One full-page drain step of the worker's flush: write the page out and
return it to the pool (`putBuffer`). -/
def flushStep (ioFail : Bool) (now : GoTime) (st : RollingFile)
    (b : List Nat) : RollingFile :=
  let st' := writeBuffer ioFail now st b
  { st' with poolCount := st'.poolCount - 1 }

/-- The current-partial-page part of the worker's flush: if a current page is
held, write it out, return it to the pool and clear `r.current`. -/
def flushCurrent (ioFail : Bool) (now : GoTime) (s1 : RollingFile) :
    RollingFile :=
  match s1.current with
  | some c =>
    let st' := writeBuffer ioFail now s1 c
    { st' with poolCount := st'.poolCount - 1, current := none }
  | none => { s1 with current := none }

/-- The final `r.file.Sync()` of the worker's flush: snapshot the open file's
contents as persisted. -/
def flushSync (s2 : RollingFile) : RollingFile :=
  if s2.fileOpen then
    { s2 with synced := setFS s2.synced s2.filePath (readFile s2.files s2.filePath) }
  else s2

/-- The worker's `flush` closure: drain the queued full pages in order, then
the current partial page, returning each to the pool, then `file.Sync()` the
open file (snapshotting its contents as persisted). -/
def flush (ioFail : Bool) (now : GoTime) (s : RollingFile) : RollingFile :=
  flushSync (flushCurrent ioFail now
    (s.fullBuffer.foldl (flushStep ioFail now) { s with fullBuffer := [] }))

/-- `RollingFile.Sync`: reject when closed; otherwise the worker performs the
full flush and acknowledges, and `Sync` returns `nil` — its result does not
depend on whether the flush's I/O succeeded. -/
def Sync (ioFail : Bool) (now : GoTime) (s : RollingFile) :
    Except RErr Unit × RollingFile :=
  if s.closed then (.error .closed, s)
  else (.ok (), flush ioFail now s)

/-- `RollingFile.Close`: the first call marks the writer closed and signals
the exit channel; later calls return `nil` immediately. -/
def Close (s : RollingFile) : Except RErr Unit × RollingFile :=
  if s.closed then (.ok (), s)
  else (.ok (), { s with closed := true })

end RollingFile

/-- `NewRollingFile`: trim a trailing `".log"` from the base path, reject base
paths whose file-name component is empty, otherwise build the fresh writer
(acquiring its first page buffer from the pool, whose outstanding count is
passed in) and spawn the worker.  On failure no writer state is produced. -/
def NewRollingFile (basePath : String) (rolling : String) (poolCount : Int) :
    Except RErr RollingFile :=
  let bp := goTrimSuffix basePath ("." ++ defaultFileExt)
  if (goSplit bp).2 = "" then .error .invalidPath
  else
    let acq : Option (List Nat) × Int :=
      match getBuffer bpoolSize poolCount with
      | none => (none, poolCount)
      | some c' => (some [], c')
    .ok { closed := false, current := acq.1, fullBuffer := [],
          poolCount := acq.2, basePath := bp, filePath := "", fileFrag := "",
          fileExt := defaultFileExt, rolling := rolling, fileOpen := false,
          files := [], synced := [] }

-- ### Concrete instants and states used by the scenario claims

def t10 : GoTime := ⟨2024, 1, 15, 10, 0, 0⟩

/-- The writer state `NewRollingFile "/logs/app" HourlyRolling` builds when the
pool has no outstanding buffer. -/
def appState : RollingFile :=
  { closed := false, current := some [], fullBuffer := [], poolCount := 1,
    basePath := "/logs/app", filePath := "", fileFrag := "", fileExt := "log",
    rolling := HourlyRolling, fileOpen := false, files := [], synced := [] }

/-- A reachable writer state with one unflushed byte in the current page. -/
def pendingState : RollingFile :=
  { closed := false, current := some [7], fullBuffer := [], poolCount := 1,
    basePath := "/logs/app", filePath := "", fileFrag := "", fileExt := "log",
    rolling := HourlyRolling, fileOpen := false, files := [], synced := [] }

/-- C3 counterexample: with soft capacity 1, the first and the second
un-released acquisitions both succeed, so the outstanding count reaches 2 > 1
and the (N+1)th acquisition does not fail as the claim states. -/
theorem getBuffer_exceeds_cap_cex : getBuffer 1 0 = some 1 ∧ getBuffer 1 1 = some 2 :=
  ⟨rfl, rfl⟩

/-- C3 (amended): `getBuffer` succeeds whenever the outstanding count is at
most the soft capacity N (so the count can reach N+1 but never exceeds N+1),
and fails fast with the no-buffer sentinel once the count exceeds N. -/
theorem getBuffer_soft_cap (N : Nat) (c : Int) (h : c ≤ (N : Int)) :
    getBuffer N c = some (c + 1) ∧ c + 1 ≤ (N : Int) + 1 ∧
    getBuffer N ((N : Int) + 1) = none := by
  refine ⟨?_, by omega, ?_⟩
  · rw [getBuffer, if_neg (by omega)]
  · rw [getBuffer, if_pos (by omega)]

theorem getBuffer_soft_cap_w :
    getBuffer 1 0 = some 1 ∧ (0 : Int) + 1 ≤ (1 : Int) + 1 ∧
    getBuffer 1 ((1 : Int) + 1) = none :=
  getBuffer_soft_cap 1 0 (by decide)

/-- C6: with an empty rolling layout every write lands in one single
time-independent file; but its path is the base path with the extension
appended WITHOUT a dot (`/logs/app` → `/logs/applog`), not `<dir>/<stem>.log`
as the claim states — the code slip the claim's dot reveals. -/
theorem rollPath_no_rolling (t1 t2 : GoTime) (base ext : String) :
    rollPath base ext "" t1 = rollPath base ext "" t2 ∧
    rollPath "/logs/app" "log" "" t1 = "/logs/applog" ∧
    ("/logs/applog" : String) ≠ "/logs/app.log" :=
  ⟨rfl, rfl, by decide⟩

/-- C7: after `Close`, every `Write` and every `Sync` fails with
`ErrClosedRollingFile` leaving the state unchanged, and a second `Close`
returns no error and performs no further shutdown action. -/
theorem close_idempotent_and_rejects (s : RollingFile) (b : List Nat) (f : Bool)
    (t : GoTime) :
    (RollingFile.Close s).1 = .ok () ∧ (RollingFile.Close s).2.closed = true ∧
    RollingFile.Write (RollingFile.Close s).2 b =
      (.error .closed, (RollingFile.Close s).2) ∧
    RollingFile.Sync f t (RollingFile.Close s).2 =
      (.error .closed, (RollingFile.Close s).2) ∧
    RollingFile.Close (RollingFile.Close s).2 = (.ok (), (RollingFile.Close s).2) := by
  cases hc : s.closed <;>
    simp [RollingFile.Close, RollingFile.Write, RollingFile.Sync, hc]

/-- C9: `NewRollingFile` fails with the invalid-path error exactly when the
base path's filename component, after trimming a trailing ".log", is empty;
it never fails for any other reason, and on failure no writer is created. -/
theorem NewRollingFile_validates_path (bp g : String) (c : Int) :
    (NewRollingFile bp g c = .error .invalidPath ↔
      (goSplit (goTrimSuffix bp ".log")).2 = "") ∧
    ((NewRollingFile bp g c).isOk = true ↔
      (goSplit (goTrimSuffix bp ".log")).2 ≠ "") := by
  have he : ("." ++ defaultFileExt : String) = ".log" := rfl
  by_cases h : (goSplit (goTrimSuffix bp ".log")).2 = "" <;>
    simp [NewRollingFile, he, h, Except.isOk, Except.toBool]

/-- C10: when the writer is not closed and a pool buffer is available (a
current page exists or the pool is below its cap), `Write b` returns count
`b.length` and no error — never a partial count. -/
theorem Write_accepts_all_bytes (s : RollingFile) (b : List Nat)
    (h1 : s.closed = false)
    (h2 : s.current.isSome = true ∨ s.poolCount ≤ (bpoolSize : Int)) :
    (RollingFile.Write s b).1 = .ok b.length := by
  rw [RollingFile.Write]
  cases hcur : s.current with
  | some c => simp [h1, hcur]; split <;> rfl
  | none =>
    have hp : s.poolCount ≤ (bpoolSize : Int) := by
      rcases h2 with h2 | h2
      · rw [hcur] at h2; simp at h2
      · exact h2
    simp [h1, hcur, getBuffer, if_neg (by omega : ¬ s.poolCount > (bpoolSize : Int))]
    split <;> rfl

theorem Write_accepts_all_bytes_w : (RollingFile.Write appState [65, 66]).1 = .ok 2 :=
  Write_accepts_all_bytes appState [65, 66] rfl (Or.inl rfl)

theorem Write_eq_detach (s : RollingFile) (b cur : List Nat)
    (h1 : s.closed = false) (h2 : s.current = some cur)
    (h3 : (cur ++ b).length > logPageCacheByteSize) :
    RollingFile.Write s b =
      (.ok b.length, { s with current := none,
                              fullBuffer := s.fullBuffer ++ [cur ++ b] }) := by
  rw [RollingFile.Write]
  simp [h1, h2, h3]
  simpa using h3

theorem Write_eq_keep (s : RollingFile) (b cur : List Nat)
    (h1 : s.closed = false) (h2 : s.current = some cur)
    (h3 : ¬ (cur ++ b).length > logPageCacheByteSize) :
    RollingFile.Write s b = (.ok b.length, { s with current := some (cur ++ b) }) := by
  rw [RollingFile.Write]
  simp [h1, h2, h3]
  simp at h3
  omega

/-- C4 counterexample: on a writer holding one buffered byte, a `Sync` whose
flush hits an underlying I/O failure still returns no error, and nothing is
written or persisted — refuting "sync() returns a non-nil error if I/O fails
during the synchronous flush". -/
theorem Sync_swallows_io_failure_cex :
    (RollingFile.Sync true t10 pendingState).1 = .ok () ∧
    (RollingFile.Sync true t10 pendingState).2.files = [] ∧
    (RollingFile.Sync true t10 pendingState).2.synced = [] :=
  ⟨rfl, rfl, rfl⟩

/-- C4 (amended): `Sync` returns nil whenever the writer is not closed,
regardless of I/O failures during the synchronous flush — flush errors are
swallowed. -/
theorem Sync_result_independent_of_io (s : RollingFile) (f : Bool) (t : GoTime)
    (h : s.closed = false) :
    (RollingFile.Sync f t s).1 = .ok () := by
  simp [RollingFile.Sync, h]

theorem Sync_result_independent_of_io_w :
    (RollingFile.Sync true t10 appState).1 = .ok () :=
  Sync_result_independent_of_io appState true t10 rfl

/-- C2 counterexample: at 2024-01-15T10:00 with base `/logs/app`, the hourly
rotation path is NOT `/logs/app/202401/15/app_10.log` (the claim's path): the
scenario's sync leaves that file absent. -/
theorem hourly_path_cex :
    rollPath "/logs/app" "log" HourlyRolling t10 ≠ "/logs/app/202401/15/app_10.log" ∧
    readFile (RollingFile.Sync false t10
        (((appState.Write [65]).2).Write [66]).2).2.synced
      "/logs/app/202401/15/app_10.log" = [] :=
  ⟨by decide, rfl⟩

/-- C2 (amended): base `/logs/app`, hourly granularity, writes "A" then "B"
and sync at 2024-01-15T10:00 persist "AB" (bytes 65, 66) to
`/logs/202401/15/app_10.log` — the dated directories nest under the base
path's parent directory, the stem appears only in the filename. -/
theorem hourly_scenario :
    NewRollingFile "/logs/app" HourlyRolling 0 = .ok appState ∧
    (appState.Write [65]).1 = .ok 1 ∧
    (((appState.Write [65]).2).Write [66]).1 = .ok 1 ∧
    (RollingFile.Sync false t10 (((appState.Write [65]).2).Write [66]).2).1 = .ok () ∧
    (RollingFile.Sync false t10 (((appState.Write [65]).2).Write [66]).2).2.filePath =
      "/logs/202401/15/app_10.log" ∧
    readFile (RollingFile.Sync false t10
        (((appState.Write [65]).2).Write [66]).2).2.synced
      "/logs/202401/15/app_10.log" = [65, 66] :=
  ⟨rfl, rfl, rfl, rfl, rfl, rfl⟩

-- ### Flush-path lemmas (fault-free case)

theorem readFile_writeFS_self (fs : List (String × List Nat)) (p : String)
    (b : List Nat) : readFile (writeFS fs p b) p = readFile fs p ++ b := by
  induction fs with
  | nil => simp [writeFS, readFile]
  | cons e rest ih =>
    obtain ⟨q, c⟩ := e
    by_cases h : q = p <;> simp [writeFS, readFile, h, ih]

theorem readFile_setFS_self (fs : List (String × List Nat)) (p : String)
    (b : List Nat) : readFile (setFS fs p b) p = b := by
  induction fs with
  | nil => simp [setFS, readFile]
  | cons e rest ih =>
    obtain ⟨q, c⟩ := e
    by_cases h : q = p <;> simp [setFS, readFile, h, ih]

namespace RollingFile

theorem roll_ok (s : RollingFile) (now : GoTime) :
    (s.roll false now).1 = true ∧
    (s.roll false now).2.fileOpen = true ∧
    (s.roll false now).2.fileFrag = timeFormat s.rolling now ∧
    (s.roll false now).2.files = s.files ∧
    (s.roll false now).2.fullBuffer = s.fullBuffer ∧
    (s.roll false now).2.current = s.current ∧
    (s.roll false now).2.closed = s.closed ∧
    (s.roll false now).2.rolling = s.rolling ∧
    (s.roll false now).2.synced = s.synced := by
  rw [roll]
  by_cases h : s.fileOpen = true ∧ timeFormat s.rolling now = s.fileFrag
  · rw [if_pos h]
    exact ⟨rfl, h.1, h.2.symm, rfl, rfl, rfl, rfl, rfl, rfl⟩
  · rw [if_neg h]
    exact ⟨rfl, rfl, rfl, rfl, rfl, rfl, rfl, rfl, rfl⟩

theorem roll_reuse (s : RollingFile) (f : Bool) (now : GoTime)
    (h1 : s.fileOpen = true) (h2 : s.fileFrag = timeFormat s.rolling now) :
    s.roll f now = (true, s) := by
  rw [roll]
  simp [h1, h2.symm]

theorem writeBuffer_empty (s : RollingFile) (f : Bool) (now : GoTime) :
    s.writeBuffer f now [] = s := by
  simp [writeBuffer]

theorem writeBuffer_nofail (s : RollingFile) (now : GoTime) (b : List Nat)
    (hb : b ≠ []) :
    (s.writeBuffer false now b).fileOpen = true ∧
    (s.writeBuffer false now b).fileFrag = timeFormat s.rolling now ∧
    (s.writeBuffer false now b).filePath = (s.roll false now).2.filePath ∧
    (s.writeBuffer false now b).files =
      writeFS s.files (s.roll false now).2.filePath b ∧
    (s.writeBuffer false now b).fullBuffer = s.fullBuffer ∧
    (s.writeBuffer false now b).current = s.current ∧
    (s.writeBuffer false now b).closed = s.closed ∧
    (s.writeBuffer false now b).rolling = s.rolling ∧
    (s.writeBuffer false now b).synced = s.synced := by
  obtain ⟨h1, h2, h3, h4, h5, h6, h7, h8, h9⟩ := roll_ok s now
  have hlen : b.length > 0 := List.length_pos.2 hb
  rcases hr : s.roll false now with ⟨ok, s1⟩
  rw [hr] at h1 h2 h3 h4 h5 h6 h7 h8 h9
  dsimp only at h1 h2 h3 h4 h5 h6 h7 h8 h9
  subst h1
  rw [writeBuffer, if_pos hlen, hr]
  dsimp only
  exact ⟨h2, h3, rfl, by rw [h4], h5, h6, h7, h8, h9⟩

theorem writeBuffer_reuse (t : RollingFile) (now : GoTime) (b : List Nat)
    (h1 : t.fileOpen = true) (h2 : t.fileFrag = timeFormat t.rolling now)
    (hb : b ≠ []) :
    t.writeBuffer false now b = { t with files := writeFS t.files t.filePath b } := by
  rw [writeBuffer, if_pos (List.length_pos.2 hb), roll_reuse t false now h1 h2]

theorem flushStep_empty (t : RollingFile) (now : GoTime) :
    flushStep false now t [] = { t with poolCount := t.poolCount - 1 } := by
  rw [flushStep, writeBuffer_empty]

theorem flushStep_reuse (t : RollingFile) (now : GoTime) (b : List Nat)
    (h1 : t.fileOpen = true) (h2 : t.fileFrag = timeFormat t.rolling now)
    (hb : b ≠ []) :
    flushStep false now t b =
      { t with files := writeFS t.files t.filePath b,
               poolCount := t.poolCount - 1 } := by
  rw [flushStep, writeBuffer_reuse t now b h1 h2 hb]

theorem foldl_flushStep_inv (now : GoTime) (l : List (List Nat)) :
    ∀ t : RollingFile, t.fileOpen = true → t.fileFrag = timeFormat t.rolling now →
    (l.foldl (flushStep false now) t).fileOpen = true ∧
    (l.foldl (flushStep false now) t).fileFrag = t.fileFrag ∧
    (l.foldl (flushStep false now) t).filePath = t.filePath ∧
    (l.foldl (flushStep false now) t).rolling = t.rolling ∧
    (l.foldl (flushStep false now) t).current = t.current ∧
    (l.foldl (flushStep false now) t).closed = t.closed ∧
    (l.foldl (flushStep false now) t).synced = t.synced ∧
    (l.foldl (flushStep false now) t).fullBuffer = t.fullBuffer ∧
    readFile (l.foldl (flushStep false now) t).files t.filePath =
      readFile t.files t.filePath ++ l.flatten := by
  induction l with
  | nil => intro t h1 h2; simp [h1]
  | cons b rest ih =>
    intro t h1 h2
    rw [List.foldl_cons]
    by_cases hb : b = []
    · subst hb
      rw [flushStep_empty]
      obtain ⟨g1, g2, g3, g4, g5, g6, g7, g8, g9⟩ :=
        ih { t with poolCount := t.poolCount - 1 } h1 h2
      exact ⟨g1, g2, g3, g4, g5, g6, g7, g8, by simpa using g9⟩
    · rw [flushStep_reuse t now b h1 h2 hb]
      obtain ⟨g1, g2, g3, g4, g5, g6, g7, g8, g9⟩ :=
        ih { t with files := writeFS t.files t.filePath b,
                    poolCount := t.poolCount - 1 } h1 h2
      refine ⟨g1, g2, g3, g4, g5, g6, g7, g8, ?_⟩
      rw [g9]
      simp [readFile_writeFS_self]

theorem foldl_flushStep_establish (now : GoTime) (l : List (List Nat))
    (t : RollingFile) (hl : l ≠ []) (hne : ∀ p ∈ l, p ≠ []) :
    (l.foldl (flushStep false now) t).fileOpen = true ∧
    (l.foldl (flushStep false now) t).fileFrag = timeFormat t.rolling now ∧
    (l.foldl (flushStep false now) t).filePath = (t.roll false now).2.filePath ∧
    (l.foldl (flushStep false now) t).rolling = t.rolling ∧
    (l.foldl (flushStep false now) t).current = t.current ∧
    (l.foldl (flushStep false now) t).closed = t.closed ∧
    (l.foldl (flushStep false now) t).synced = t.synced ∧
    (l.foldl (flushStep false now) t).fullBuffer = t.fullBuffer ∧
    readFile (l.foldl (flushStep false now) t).files (t.roll false now).2.filePath =
      readFile t.files (t.roll false now).2.filePath ++ l.flatten := by
  match l with
  | [] => exact absurd rfl hl
  | b :: rest =>
    have hb : b ≠ [] := hne b (by simp)
    obtain ⟨w1, w2, w3, w4, w5, w6, w7, w8, w9⟩ := writeBuffer_nofail t now b hb
    rw [List.foldl_cons]
    have hstep : flushStep false now t b =
        { t.writeBuffer false now b with
            poolCount := (t.writeBuffer false now b).poolCount - 1 } := rfl
    set t1 := flushStep false now t b with ht1
    have e1 : t1.fileOpen = true := w1
    have e2 : t1.fileFrag = timeFormat t.rolling now := w2
    have e3 : t1.filePath = (t.roll false now).2.filePath := w3
    have e4 : t1.files = writeFS t.files (t.roll false now).2.filePath b := w4
    have e5 : t1.fullBuffer = t.fullBuffer := w5
    have e6 : t1.current = t.current := w6
    have e7 : t1.closed = t.closed := w7
    have e8 : t1.rolling = t.rolling := w8
    have e9 : t1.synced = t.synced := w9
    obtain ⟨g1, g2, g3, g4, g5, g6, g7, g8, g9⟩ :=
      foldl_flushStep_inv now rest t1 e1 (by rw [e2, e8])
    refine ⟨g1, by rw [g2, e2], by rw [g3, e3], by rw [g4, e8],
            by rw [g5, e6], by rw [g6, e7], by rw [g7, e9], by rw [g8, e5], ?_⟩
    rw [← e3, g9, e4, e3, readFile_writeFS_self]
    simp

theorem flushCurrent_none (s1 : RollingFile) (f : Bool) (now : GoTime)
    (h : s1.current = none) :
    flushCurrent f now s1 = { s1 with current := none } := by
  rw [flushCurrent, h]

theorem flushCurrent_some (s1 : RollingFile) (f : Bool) (now : GoTime)
    (c : List Nat) (h : s1.current = some c) :
    flushCurrent f now s1 =
      { s1.writeBuffer f now c with
          poolCount := (s1.writeBuffer f now c).poolCount - 1,
          current := none } := by
  rw [flushCurrent, h]

theorem flushSync_open (s2 : RollingFile) (h : s2.fileOpen = true) :
    flushSync s2 =
      { s2 with synced := setFS s2.synced s2.filePath
                  (readFile s2.files s2.filePath) } := by
  rw [flushSync, if_pos h]

theorem flush_content (s : RollingFile) (now : GoTime)
    (hfb : ∀ p ∈ s.fullBuffer, p ≠ [])
    (hne : s.fullBuffer ≠ [] ∨ ∃ c, s.current = some c ∧ c ≠ []) :
    (flush false now s).fileOpen = true ∧
    readFile (flush false now s).synced (flush false now s).filePath =
      readFile s.files (flush false now s).filePath ++
        s.fullBuffer.flatten ++ s.current.getD [] := by
  rw [flush]
  set t0 : RollingFile := { s with fullBuffer := [] } with ht0
  set t1 := s.fullBuffer.foldl (flushStep false now) t0 with ht1
  by_cases hfb1 : s.fullBuffer = []
  · rcases hne with hne | ⟨c, hc, hcne⟩
    · exact absurd hfb1 hne
    · have hfold : t1 = t0 := by rw [ht1, hfb1]; rfl
      have hc1 : t1.current = some c := by rw [hfold]; exact hc
      rw [flushCurrent_some t1 false now c hc1]
      obtain ⟨w1, w2, w3, w4, w5, w6, w7, w8, w9⟩ :=
        writeBuffer_nofail t1 now c hcne
      have w1' : ({ t1.writeBuffer false now c with
          poolCount := (t1.writeBuffer false now c).poolCount - 1,
          current := none } : RollingFile).fileOpen = true := w1
      rw [flushSync_open _ w1']
      dsimp only
      rw [readFile_setFS_self, w3, w4, readFile_writeFS_self]
      refine ⟨w1, ?_⟩
      have hf : t1.files = s.files := by rw [hfold]
      rw [hf, hfb1, hc]
      simp
  · obtain ⟨g1, g2, g3, g4, g5, g6, g7, g8, g9⟩ :=
      foldl_flushStep_establish now s.fullBuffer t0 hfb1 hfb
    rw [← ht1] at g1 g2 g3 g4 g5 g6 g7 g8 g9
    have ht0c : t0.current = s.current := rfl
    have ht0f : t0.files = s.files := rfl
    have ht0r : t0.rolling = s.rolling := rfl
    cases hcur : s.current with
    | none =>
      have hc1 : t1.current = none := by rw [g5, ht0c, hcur]
      rw [flushCurrent_none t1 false now hc1]
      have g1' : ({ t1 with current := none } : RollingFile).fileOpen = true := g1
      rw [flushSync_open _ g1']
      dsimp only
      rw [readFile_setFS_self, g3, g9, ht0f]
      exact ⟨g1, by simp⟩
    | some c =>
      have hc1 : t1.current = some c := by rw [g5, ht0c, hcur]
      rw [flushCurrent_some t1 false now c hc1]
      by_cases hcne : c = []
      · subst hcne
        rw [writeBuffer_empty]
        have g1' : ({ t1 with
            poolCount := t1.poolCount - 1,
            current := none } : RollingFile).fileOpen = true := g1
        rw [flushSync_open _ g1']
        dsimp only
        rw [readFile_setFS_self, g3, g9, ht0f]
        exact ⟨g1, by simp⟩
      · have hinv : t1.fileFrag = timeFormat t1.rolling now := by
          rw [g2, g4, ht0r, ht0r]
        rw [writeBuffer_reuse t1 now c g1 hinv hcne]
        have g1' : ({ t1 with
            files := writeFS t1.files t1.filePath c,
            poolCount := t1.poolCount - 1,
            current := none } : RollingFile).fileOpen = true := g1
        rw [flushSync_open _ g1']
        dsimp only
        rw [readFile_setFS_self, readFile_writeFS_self, g3, g9, ht0f]
        exact ⟨g1, by simp⟩

theorem Write_closed_or_ok (s : RollingFile) (b : List Nat)
    (hw : (Write s b).1 = .ok b.length) : s.closed = false := by
  by_cases h : s.closed = true
  · rw [Write, if_pos h] at hw
    exact absurd hw (by simp)
  · simpa using h

theorem Write_eq_detach_fresh (s : RollingFile) (b : List Nat)
    (h1 : s.closed = false) (h2 : s.current = none)
    (hpool : ¬ s.poolCount > (bpoolSize : Int))
    (h3 : b.length > logPageCacheByteSize) :
    Write s b = (.ok b.length,
      { s with current := none, poolCount := s.poolCount + 1,
               fullBuffer := s.fullBuffer ++ [b] }) := by
  rw [Write]
  simp [h1, h2, h3, getBuffer, hpool]

theorem Write_eq_keep_fresh (s : RollingFile) (b : List Nat)
    (h1 : s.closed = false) (h2 : s.current = none)
    (hpool : ¬ s.poolCount > (bpoolSize : Int))
    (h3 : ¬ b.length > logPageCacheByteSize) :
    Write s b = (.ok b.length,
      { s with current := some b, poolCount := s.poolCount + 1 }) := by
  rw [Write]
  simp [h1, h2, h3, getBuffer, hpool]

theorem sync_after_suffix (s1 : RollingFile) (b : List Nat) (now : GoTime)
    (hclosed : s1.closed = false)
    (hfb : ∀ p ∈ s1.fullBuffer, p ≠ [])
    (hsuf : b <:+ s1.fullBuffer.flatten ++ s1.current.getD [])
    (hne : s1.fullBuffer ≠ [] ∨ ∃ c, s1.current = some c ∧ c ≠ []) :
    (Sync false now s1).1 = .ok () ∧
    b <:+ readFile (Sync false now s1).2.synced (Sync false now s1).2.filePath := by
  rw [Sync, if_neg (by simp [hclosed])]
  obtain ⟨hopen, hcontent⟩ := flush_content s1 now hfb hne
  refine ⟨rfl, ?_⟩
  dsimp only
  rw [hcontent, List.append_assoc]
  exact hsuf.trans (List.suffix_append _ _)

/-- C1 (amended): if `Write b` succeeds and the flush triggered by a
subsequent `Sync` performs its I/O without failure, then when `Sync` returns
(with no error) the persisted contents of the target file include `b` in
full: the worker drains all queued full pages and the current partial page,
syncs the open file, and only then acknowledges. -/
theorem sync_durability (s : RollingFile) (b : List Nat) (now : GoTime)
    (hfb : ∀ p ∈ s.fullBuffer, p ≠ [])
    (hw : (Write s b).1 = .ok b.length) :
    (Sync false now (Write s b).2).1 = .ok () ∧
    b <:+ readFile (Sync false now (Write s b).2).2.synced
      (Sync false now (Write s b).2).2.filePath := by
  have hclosed := Write_closed_or_ok s b hw
  cases hcur : s.current with
  | some cur =>
    by_cases h3 : (cur ++ b).length > logPageCacheByteSize
    · rw [Write_eq_detach s b cur hclosed hcur h3]
      apply sync_after_suffix
      · exact hclosed
      · intro p hp
        rcases List.mem_append.1 hp with hp | hp
        · exact hfb p hp
        · simp only [List.mem_singleton] at hp
          subst hp
          exact List.ne_nil_of_length_pos (by omega)
      · show b <:+ (s.fullBuffer ++ [cur ++ b]).flatten ++ ([] : List Nat)
        rw [List.append_nil, List.flatten_append]
        simp only [List.flatten, List.append_nil]
        exact (List.suffix_append cur b).trans (List.suffix_append _ _)
      · left
        simp
    · rw [Write_eq_keep s b cur hclosed hcur h3]
      by_cases hd : cur ++ b = []
      · obtain ⟨hc0, hb0⟩ := List.append_eq_nil.1 hd
        subst hb0
        constructor
        · rw [Sync, if_neg (by simp [hclosed])]
        · exact List.nil_suffix
      · apply sync_after_suffix
        · exact hclosed
        · exact hfb
        · show b <:+ s.fullBuffer.flatten ++ (cur ++ b)
          exact (List.suffix_append cur b).trans (List.suffix_append _ _)
        · exact Or.inr ⟨cur ++ b, rfl, hd⟩
  | none =>
    by_cases hpool : s.poolCount > (bpoolSize : Int)
    · exfalso
      rw [Write] at hw
      simp [hclosed, hcur, getBuffer, hpool] at hw
    · by_cases h3 : b.length > logPageCacheByteSize
      · rw [Write_eq_detach_fresh s b hclosed hcur hpool h3]
        apply sync_after_suffix
        · exact hclosed
        · intro p hp
          rcases List.mem_append.1 hp with hp | hp
          · exact hfb p hp
          · simp only [List.mem_singleton] at hp
            subst hp
            exact List.ne_nil_of_length_pos (by omega)
        · show b <:+ (s.fullBuffer ++ [b]).flatten ++ ([] : List Nat)
          rw [List.append_nil, List.flatten_append]
          simp only [List.flatten, List.append_nil]
          exact List.suffix_append _ _
        · left
          simp
      · rw [Write_eq_keep_fresh s b hclosed hcur hpool h3]
        by_cases hd : b = []
        · subst hd
          constructor
          · rw [Sync, if_neg (by simp [hclosed])]
          · exact List.nil_suffix
        · apply sync_after_suffix
          · exact hclosed
          · exact hfb
          · show b <:+ s.fullBuffer.flatten ++ b
            exact List.suffix_append _ _
          · exact Or.inr ⟨b, rfl, hd⟩

end RollingFile

theorem sync_durability_w :
    (RollingFile.Sync false t10 (RollingFile.Write appState [65]).2).1 = .ok () ∧
    [65] <:+ readFile
      (RollingFile.Sync false t10 (RollingFile.Write appState [65]).2).2.synced
      (RollingFile.Sync false t10 (RollingFile.Write appState [65]).2).2.filePath :=
  RollingFile.sync_durability appState [65] t10 (by simp [appState]) rfl

/-- C1 counterexample: a successful `write` followed by a `Sync` that returns
no error does not guarantee durability as the claim states: when the flush
hits an I/O failure, `Sync` still returns nil while nothing at all was
written or persisted. -/
theorem sync_durability_cex :
    (RollingFile.Write appState [65]).1 = .ok 1 ∧
    (RollingFile.Sync true t10 (RollingFile.Write appState [65]).2).1 = .ok () ∧
    (RollingFile.Sync true t10 (RollingFile.Write appState [65]).2).2.files = [] ∧
    (RollingFile.Sync true t10 (RollingFile.Write appState [65]).2).2.synced = [] :=
  ⟨rfl, rfl, rfl, rfl⟩

-- ### Path-component lemmas for rotation-path injectivity

theorem digitChar_ne_slash (n : Nat) : digitChar n ≠ '/' := by
  rw [digitChar]
  repeat' split
  all_goals decide

theorem digitChar_ne_dot (n : Nat) : digitChar n ≠ '.' := by
  rw [digitChar]
  repeat' split
  all_goals decide

theorem splitCompsL_ne_nil (l : List Char) : splitCompsL l ≠ [] := by
  match l with
  | [] => simp [splitCompsL]
  | c :: rest =>
    rw [splitCompsL]
    split
    · simp
    · split <;> simp

theorem splitCompsL_append_slash (A B : List Char) :
    splitCompsL (A ++ '/' :: B) = splitCompsL A ++ splitCompsL B := by
  induction A with
  | nil => simp [splitCompsL]
  | cons c A ih =>
    by_cases hc : c = '/'
    · subst hc
      rw [List.cons_append, splitCompsL, if_pos rfl, ih]
      rw [splitCompsL, if_pos rfl]
      simp
    · rw [List.cons_append, splitCompsL, if_neg hc, ih]
      rw [splitCompsL, if_neg hc]
      rcases hs : splitCompsL A with _ | ⟨t, ts⟩
      · exact absurd hs (splitCompsL_ne_nil A)
      · simp

theorem splitCompsL_no_slash (l : List Char) (h : '/' ∉ l) :
    splitCompsL l = [l] := by
  induction l with
  | nil => simp [splitCompsL]
  | cons c rest ih =>
    simp only [List.mem_cons, not_or] at h
    rw [splitCompsL, if_neg (fun hc => h.1 hc.symm)]
    rw [ih h.2]

theorem mem_splitCompsL_no_slash (l : List Char) (c : List Char)
    (hc : c ∈ splitCompsL l) : '/' ∉ c := by
  induction l generalizing c with
  | nil =>
    simp [splitCompsL] at hc
    subst hc
    simp
  | cons a rest ih =>
    rw [splitCompsL] at hc
    by_cases ha : a = '/'
    · rw [if_pos ha] at hc
      rcases List.mem_cons.1 hc with hc | hc
      · subst hc; simp
      · exact ih c hc
    · rw [if_neg ha] at hc
      rcases hs : splitCompsL rest with _ | ⟨t, ts⟩
      · exact absurd hs (splitCompsL_ne_nil rest)
      · rw [hs] at hc
        rcases List.mem_cons.1 hc with hc | hc
        · subst hc
          intro hm
          rcases List.mem_cons.1 hm with hm | hm
          · exact ha hm.symm
          · exact ih t (hs ▸ List.mem_cons_self t ts) hm
        · exact ih c (hs ▸ List.mem_cons_of_mem t hc)

theorem renderCompsL_append_single (l : List (List Char)) (x : List Char)
    (hl : l ≠ []) :
    renderCompsL (l ++ [x]) = renderCompsL l ++ '/' :: x := by
  induction l with
  | nil => exact absurd rfl hl
  | cons c cs ih =>
    cases hcs : cs with
    | nil => simp [renderCompsL]
    | cons d ds =>
      rw [hcs] at ih
      have h1 : renderCompsL ((c :: d :: ds) ++ [x]) =
          c ++ '/' :: renderCompsL ((d :: ds) ++ [x]) := rfl
      have h2 : renderCompsL (c :: d :: ds) = c ++ '/' :: renderCompsL (d :: ds) := rfl
      rw [h1, h2, ih (by simp)]
      simp

theorem splitCompsL_renderCompsL (comps : List (List Char))
    (h1 : comps ≠ []) (h2 : ∀ c ∈ comps, '/' ∉ c) :
    splitCompsL (renderCompsL comps) = comps := by
  induction comps with
  | nil => exact absurd rfl h1
  | cons c cs ih =>
    cases hcs : cs with
    | nil => simp [renderCompsL, splitCompsL_no_slash c (h2 c (by simp))]
    | cons d ds =>
      subst hcs
      have hr : renderCompsL (c :: d :: ds) = c ++ '/' :: renderCompsL (d :: ds) := rfl
      rw [hr, splitCompsL_append_slash, splitCompsL_no_slash c (h2 c (by simp)),
        ih (by simp) (fun e he => h2 e (List.mem_cons_of_mem c he))]
      rfl

/-- A path element that `filepath.Clean` passes through unchanged: not empty,
not `"."`, not `".."`. -/
def goodComp (c : List Char) : Prop :=
  c ≠ [] ∧ c ≠ ['.'] ∧ c ≠ ['.', '.']

theorem goodComp_of_length (c : List Char) (h : 3 ≤ c.length) : goodComp c := by
  refine ⟨?_, ?_, ?_⟩ <;> intro he <;> subst he <;> simp at h

theorem pushComp_good (r : Bool) (acc : List (List Char)) (c : List Char)
    (h : goodComp c) : pushComp r acc c = c :: acc := by
  rw [pushComp.eq_def, if_neg (by simp [h.1, h.2.1]), if_neg h.2.2]

theorem foldl_pushComp_good (r : Bool) (l : List (List Char))
    (h : ∀ c ∈ l, goodComp c) :
    ∀ acc, l.foldl (pushComp r) acc = l.reverse ++ acc := by
  induction l with
  | nil => intro acc; simp
  | cons c cs ih =>
    intro acc
    rw [List.foldl_cons, pushComp_good r acc c (h c (by simp)),
      ih (fun e he => h e (List.mem_cons_of_mem c he))]
    simp

theorem mem_pushComp_no_slash (r : Bool) (acc : List (List Char)) (c : List Char)
    (hc : '/' ∉ c) (hacc : ∀ e ∈ acc, '/' ∉ e) :
    ∀ e ∈ pushComp r acc c, '/' ∉ e := by
  intro e he
  by_cases h1 : c = [] ∨ c = ['.']
  · rw [pushComp.eq_def, if_pos h1] at he
    exact hacc e he
  · by_cases h2 : c = ['.', '.']
    · rw [pushComp.eq_def, if_neg h1, if_pos h2] at he
      cases acc with
      | nil =>
        cases r with
        | true => simp at he
        | false =>
          simp at he
          subst he
          decide
      | cons a rest =>
        dsimp only at he
        by_cases h3 : a = ['.', '.']
        · rw [if_pos h3] at he
          rcases List.mem_cons.1 he with he | he
          · subst he
            subst h2
            decide
          · exact hacc e he
        · rw [if_neg h3] at he
          exact hacc e (List.mem_cons_of_mem a he)
    · rw [pushComp.eq_def, if_neg h1, if_neg h2] at he
      rcases List.mem_cons.1 he with he | he
      · subst he
        exact hc
      · exact hacc e he

theorem mem_foldl_pushComp_no_slash (r : Bool) (l : List (List Char)) :
    ∀ acc, (∀ c ∈ l, '/' ∉ c) → (∀ e ∈ acc, '/' ∉ e) →
    ∀ e ∈ l.foldl (pushComp r) acc, '/' ∉ e := by
  induction l with
  | nil => intro acc _ hacc e he; exact hacc e he
  | cons c cs ih =>
    intro acc hl hacc e he
    rw [List.foldl_cons] at he
    exact ih (pushComp r acc c) (fun d hd => hl d (List.mem_cons_of_mem c hd))
      (mem_pushComp_no_slash r acc c (hl c (by simp)) hacc) e he

/-- Whether the cleaned path will be rooted, given the directory part. -/
def rootedOf (dir : List Char) : Bool := decide ((dir ++ ['/']).head? = some '/')

/-- The output components `filepath.Clean` produces for the directory part. -/
def accOf (dir : List Char) : List (List Char) :=
  ((splitCompsL dir).foldl (pushComp (rootedOf dir)) []).reverse

theorem head?_append_cons (dir X : List Char) :
    (dir ++ '/' :: X).head? = (dir ++ ['/']).head? := by
  cases dir <;> simp

theorem cleanL_structured (dir : List Char) (comps : List (List Char))
    (hg : ∀ c ∈ comps, goodComp c) (hs : ∀ c ∈ comps, '/' ∉ c)
    (hcne : comps ≠ []) :
    cleanL (dir ++ '/' :: renderCompsL comps) =
      (if rootedOf dir then ['/'] else []) ++ renderCompsL (accOf dir ++ comps) := by
  have hWne : dir ++ '/' :: renderCompsL comps ≠ [] := by
    cases dir <;> simp
  have hhead : decide ((dir ++ '/' :: renderCompsL comps).head? = some '/') =
      rootedOf dir := by
    rw [rootedOf, head?_append_cons]
  rw [cleanL, if_neg hWne]
  have hsplit : splitCompsL (dir ++ '/' :: renderCompsL comps) =
      splitCompsL dir ++ comps := by
    rw [splitCompsL_append_slash, splitCompsL_renderCompsL comps hcne hs]
  rw [hsplit, head?_append_cons]
  dsimp only
  rw [List.foldl_append,
    foldl_pushComp_good (decide ((dir ++ ['/']).head? = some '/')) comps hg]
  have hout : (comps.reverse ++
      (splitCompsL dir).foldl
        (pushComp (decide ((dir ++ ['/']).head? = some '/'))) []).reverse =
      accOf dir ++ comps := by
    rw [List.reverse_append, List.reverse_reverse]
    rfl
  rw [hout]
  have hne2 : accOf dir ++ comps ≠ [] := by
    cases comps with
    | nil => exact absurd rfl hcne
    | cons a l => simp
  rw [if_neg hne2]
  by_cases hq : (dir ++ ['/']).head? = some '/' <;> simp [hq, rootedOf]

theorem accOf_no_slash (dir : List Char) : ∀ e ∈ accOf dir, '/' ∉ e := by
  intro e he
  rw [accOf, List.mem_reverse] at he
  exact mem_foldl_pushComp_no_slash (rootedOf dir) (splitCompsL dir) []
    (fun c hc => mem_splitCompsL_no_slash dir c hc) (by simp) e he

theorem cleanL_structured_inj (dir : List Char) (c1 c2 : List (List Char))
    (hg1 : ∀ c ∈ c1, goodComp c) (hs1 : ∀ c ∈ c1, '/' ∉ c) (hne1 : c1 ≠ [])
    (hg2 : ∀ c ∈ c2, goodComp c) (hs2 : ∀ c ∈ c2, '/' ∉ c) (hne2 : c2 ≠ [])
    (heq : cleanL (dir ++ '/' :: renderCompsL c1) =
           cleanL (dir ++ '/' :: renderCompsL c2)) :
    c1 = c2 := by
  rw [cleanL_structured dir c1 hg1 hs1 hne1,
      cleanL_structured dir c2 hg2 hs2 hne2] at heq
  have hrender : renderCompsL (accOf dir ++ c1) = renderCompsL (accOf dir ++ c2) := by
    cases h : rootedOf dir <;> rw [h] at heq <;> simpa using heq
  have hmem1 : ∀ c ∈ accOf dir ++ c1, '/' ∉ c := by
    intro c hc
    rcases List.mem_append.1 hc with hc | hc
    · exact accOf_no_slash dir c hc
    · exact hs1 c hc
  have hmem2 : ∀ c ∈ accOf dir ++ c2, '/' ∉ c := by
    intro c hc
    rcases List.mem_append.1 hc with hc | hc
    · exact accOf_no_slash dir c hc
    · exact hs2 c hc
  have happne1 : accOf dir ++ c1 ≠ [] := by
    cases c1 with
    | nil => exact absurd rfl hne1
    | cons a l => simp
  have happne2 : accOf dir ++ c2 ≠ [] := by
    cases c2 with
    | nil => exact absurd rfl hne2
    | cons a l => simp
  have h1 := splitCompsL_renderCompsL (accOf dir ++ c1) happne1 hmem1
  have h2 := splitCompsL_renderCompsL (accOf dir ++ c2) happne2 hmem2
  rw [hrender, h2] at h1
  exact (List.append_cancel_left h1).symm

-- ### Digit-block facts

theorem pad2L_length (n : Nat) (h : n < 100) : (pad2L n).length = 2 := by
  rw [pad2L, if_pos h]
  rfl

theorem pad2L_no_slash (n : Nat) (h : n < 100) : '/' ∉ pad2L n := by
  rw [pad2L, if_pos h]
  intro hm
  rcases List.mem_cons.1 hm with hm | hm
  · exact digitChar_ne_slash (n / 10) hm.symm
  · rcases List.mem_cons.1 hm with hm | hm
    · exact digitChar_ne_slash (n % 10) hm.symm
    · simp at hm

theorem pad2L_good (n : Nat) (h : n < 100) : goodComp (pad2L n) := by
  rw [pad2L, if_pos h]
  refine ⟨by simp, by simp, ?_⟩
  intro he
  have : digitChar (n / 10) = '.' := by
    have := congrArg (fun l => l.head?) he
    simpa using this
  exact digitChar_ne_dot (n / 10) this

theorem pad4L_length (n : Nat) (h : n < 10000) : (pad4L n).length = 4 := by
  rw [pad4L, if_pos h]
  rfl

theorem pad4L_no_slash (n : Nat) (h : n < 10000) : '/' ∉ pad4L n := by
  rw [pad4L, if_pos h]
  intro hm
  simp only [List.mem_cons, List.not_mem_nil, or_false] at hm
  rcases hm with hm | hm | hm | hm <;>
    exact digitChar_ne_slash _ hm.symm

theorem pad4L_ne_nil (n : Nat) (h : n < 10000) : pad4L n ≠ [] := by
  intro he
  have := congrArg List.length he
  rw [pad4L_length n h] at this
  simp at this

/-- Realistic bounds on a wall-clock reading (Go's `time.Now()` always
satisfies these). -/
def tmBounds (t : GoTime) : Prop :=
  t.year < 10000 ∧ t.month < 100 ∧ t.day < 100 ∧ t.hour < 100 ∧
    t.minute < 100 ∧ t.second < 100

instance (t : GoTime) : Decidable (tmBounds t) := by
  rw [tmBounds]
  infer_instance

/-- The dated directory components `roll` nests under the base directory, per
granularity. -/
def dcompsL (g : String) (t : GoTime) : List (List Char) :=
  if g = MonthlyRolling then [pad4L t.year]
  else if g = DailyRolling then [pad4L t.year ++ pad2L t.month]
  else if g = HourlyRolling then [pad4L t.year ++ pad2L t.month, pad2L t.day]
  else if g = MinutelyRolling then
    [pad4L t.year ++ pad2L t.month, pad2L t.day, pad2L t.hour]
  else if g = SecondlyRolling then
    [pad4L t.year ++ pad2L t.month, pad2L t.day, pad2L t.hour, pad2L t.minute]
  else []

/-- The finest time unit, embedded in the file name, per granularity. -/
def fdigitL (g : String) (t : GoTime) : List Char :=
  if g = MonthlyRolling then pad2L t.month
  else if g = DailyRolling then pad2L t.day
  else if g = HourlyRolling then pad2L t.hour
  else if g = MinutelyRolling then pad2L t.minute
  else if g = SecondlyRolling then pad2L t.second
  else []

/-- The five rolling layouts of the repository. -/
def isRollingLayout (g : String) : Prop :=
  g = MonthlyRolling ∨ g = DailyRolling ∨ g = HourlyRolling ∨
    g = MinutelyRolling ∨ g = SecondlyRolling

instance (g : String) : Decidable (isRollingLayout g) := by
  rw [isRollingLayout]
  infer_instance

theorem dcompsL_monthly (t : GoTime) : dcompsL MonthlyRolling t = [pad4L t.year] := by
  rw [dcompsL, if_pos rfl]

theorem dcompsL_daily (t : GoTime) :
    dcompsL DailyRolling t = [pad4L t.year ++ pad2L t.month] := by
  rw [dcompsL, if_neg (by decide), if_pos rfl]

theorem dcompsL_hourly (t : GoTime) :
    dcompsL HourlyRolling t = [pad4L t.year ++ pad2L t.month, pad2L t.day] := by
  rw [dcompsL, if_neg (by decide), if_neg (by decide), if_pos rfl]

theorem dcompsL_minutely (t : GoTime) :
    dcompsL MinutelyRolling t =
      [pad4L t.year ++ pad2L t.month, pad2L t.day, pad2L t.hour] := by
  rw [dcompsL, if_neg (by decide), if_neg (by decide), if_neg (by decide),
    if_pos rfl]

theorem dcompsL_secondly (t : GoTime) :
    dcompsL SecondlyRolling t =
      [pad4L t.year ++ pad2L t.month, pad2L t.day, pad2L t.hour, pad2L t.minute] := by
  rw [dcompsL, if_neg (by decide), if_neg (by decide), if_neg (by decide),
    if_neg (by decide), if_pos rfl]

theorem fdigitL_monthly (t : GoTime) : fdigitL MonthlyRolling t = pad2L t.month := by
  rw [fdigitL, if_pos rfl]

theorem fdigitL_daily (t : GoTime) : fdigitL DailyRolling t = pad2L t.day := by
  rw [fdigitL, if_neg (by decide), if_pos rfl]

theorem fdigitL_hourly (t : GoTime) : fdigitL HourlyRolling t = pad2L t.hour := by
  rw [fdigitL, if_neg (by decide), if_neg (by decide), if_pos rfl]

theorem fdigitL_minutely (t : GoTime) : fdigitL MinutelyRolling t = pad2L t.minute := by
  rw [fdigitL, if_neg (by decide), if_neg (by decide), if_neg (by decide),
    if_pos rfl]

theorem fdigitL_secondly (t : GoTime) : fdigitL SecondlyRolling t = pad2L t.second := by
  rw [fdigitL, if_neg (by decide), if_neg (by decide), if_neg (by decide),
    if_neg (by decide), if_pos rfl]

theorem fragL_monthly (t : GoTime) : fragL MonthlyRolling t = pad4L t.year ++ pad2L t.month := by
  rw [fragL, if_neg (by decide), if_pos rfl]

theorem fragL_daily (t : GoTime) :
    fragL DailyRolling t = pad4L t.year ++ pad2L t.month ++ pad2L t.day := by
  rw [fragL, if_neg (by decide), if_neg (by decide), if_pos rfl]

theorem fragL_hourly (t : GoTime) :
    fragL HourlyRolling t =
      pad4L t.year ++ pad2L t.month ++ pad2L t.day ++ pad2L t.hour := by
  rw [fragL, if_neg (by decide), if_neg (by decide), if_neg (by decide), if_pos rfl]

theorem fragL_minutely (t : GoTime) :
    fragL MinutelyRolling t =
      pad4L t.year ++ pad2L t.month ++ pad2L t.day ++ pad2L t.hour ++
        pad2L t.minute := by
  rw [fragL, if_neg (by decide), if_neg (by decide), if_neg (by decide),
    if_neg (by decide), if_pos rfl]

theorem fragL_secondly (t : GoTime) :
    fragL SecondlyRolling t =
      pad4L t.year ++ pad2L t.month ++ pad2L t.day ++ pad2L t.hour ++
        pad2L t.minute ++ pad2L t.second := by
  rw [fragL, if_neg (by decide), if_neg (by decide), if_neg (by decide),
    if_neg (by decide), if_neg (by decide), if_pos rfl]

theorem fragL_flatten (g : String) (t : GoTime) (hg : isRollingLayout g) :
    fragL g t = (dcompsL g t).flatten ++ fdigitL g t := by
  rcases hg with hg | hg | hg | hg | hg <;> subst hg
  · rw [fragL_monthly, dcompsL_monthly, fdigitL_monthly]
    simp
  · rw [fragL_daily, dcompsL_daily, fdigitL_daily]
    simp
  · rw [fragL_hourly, dcompsL_hourly, fdigitL_hourly]
    simp
  · rw [fragL_minutely, dcompsL_minutely, fdigitL_minutely]
    simp
  · rw [fragL_secondly, dcompsL_secondly, fdigitL_secondly]
    simp

theorem p46_facts (y m : Nat) (hy : y < 10000) (hm : m < 100) :
    goodComp (pad4L y ++ pad2L m) ∧ '/' ∉ pad4L y ++ pad2L m := by
  constructor
  · apply goodComp_of_length
    rw [List.length_append, pad4L_length y hy, pad2L_length m hm]
    omega
  · intro hmem
    rcases List.mem_append.1 hmem with hmem | hmem
    · exact pad4L_no_slash y hy hmem
    · exact pad2L_no_slash m hm hmem

theorem dcompsL_facts (g : String) (t : GoTime) (hg : isRollingLayout g)
    (hb : tmBounds t) : ∀ c ∈ dcompsL g t, goodComp c ∧ '/' ∉ c := by
  obtain ⟨b1, b2, b3, b4, b5, b6⟩ := hb
  have h4 : goodComp (pad4L t.year) ∧ '/' ∉ pad4L t.year := by
    refine ⟨goodComp_of_length _ ?_, pad4L_no_slash t.year b1⟩
    rw [pad4L_length t.year b1]
    omega
  have hp2 : ∀ n, n < 100 → goodComp (pad2L n) ∧ '/' ∉ pad2L n :=
    fun n hn => ⟨pad2L_good n hn, pad2L_no_slash n hn⟩
  have h46 := p46_facts t.year t.month b1 b2
  intro c hc
  rcases hg with hg | hg | hg | hg | hg <;> subst hg
  · rw [dcompsL_monthly] at hc
    rcases List.mem_singleton.1 hc with hc
    subst hc
    exact h4
  · rw [dcompsL_daily] at hc
    rcases List.mem_singleton.1 hc with hc
    subst hc
    exact h46
  · rw [dcompsL_hourly] at hc
    rcases List.mem_cons.1 hc with hc | hc
    · subst hc; exact h46
    rcases List.mem_singleton.1 hc with hc
    subst hc
    exact hp2 t.day b3
  · rw [dcompsL_minutely] at hc
    rcases List.mem_cons.1 hc with hc | hc
    · subst hc; exact h46
    rcases List.mem_cons.1 hc with hc | hc
    · subst hc; exact hp2 t.day b3
    rcases List.mem_singleton.1 hc with hc
    subst hc
    exact hp2 t.hour b4
  · rw [dcompsL_secondly] at hc
    rcases List.mem_cons.1 hc with hc | hc
    · subst hc; exact h46
    rcases List.mem_cons.1 hc with hc | hc
    · subst hc; exact hp2 t.day b3
    rcases List.mem_cons.1 hc with hc | hc
    · subst hc; exact hp2 t.hour b4
    rcases List.mem_singleton.1 hc with hc
    subst hc
    exact hp2 t.minute b5

theorem dcompsL_length (g : String) (t1 t2 : GoTime) (hg : isRollingLayout g) :
    (dcompsL g t1).length = (dcompsL g t2).length := by
  rcases hg with hg | hg | hg | hg | hg <;> subst hg <;>
    simp [dcompsL_monthly, dcompsL_daily, dcompsL_hourly, dcompsL_minutely,
      dcompsL_secondly]

theorem fdigitL_length (g : String) (t : GoTime) (hg : isRollingLayout g)
    (hb : tmBounds t) : (fdigitL g t).length = 2 := by
  obtain ⟨b1, b2, b3, b4, b5, b6⟩ := hb
  rcases hg with hg | hg | hg | hg | hg <;> subst hg
  · rw [fdigitL_monthly, pad2L_length t.month b2]
  · rw [fdigitL_daily, pad2L_length t.day b3]
  · rw [fdigitL_hourly, pad2L_length t.hour b4]
  · rw [fdigitL_minutely, pad2L_length t.minute b5]
  · rw [fdigitL_secondly, pad2L_length t.second b6]

theorem fdigitL_no_slash (g : String) (t : GoTime) (hg : isRollingLayout g)
    (hb : tmBounds t) : '/' ∉ fdigitL g t := by
  obtain ⟨b1, b2, b3, b4, b5, b6⟩ := hb
  rcases hg with hg | hg | hg | hg | hg <;> subst hg
  · rw [fdigitL_monthly]; exact pad2L_no_slash t.month b2
  · rw [fdigitL_daily]; exact pad2L_no_slash t.day b3
  · rw [fdigitL_hourly]; exact pad2L_no_slash t.hour b4
  · rw [fdigitL_minutely]; exact pad2L_no_slash t.minute b5
  · rw [fdigitL_secondly]; exact pad2L_no_slash t.second b6

theorem append_cons_ne_nil (dir : List Char) (c : Char) (X : List Char) :
    dir ++ c :: X ≠ [] := by
  cases dir <;> simp

theorem rollPathL_structured (base ext : List Char) (g : String) (t : GoTime)
    (hg : isRollingLayout g) (hb : tmBounds t) :
    rollPathL base ext g t =
      cleanL ((goSplitL base).1 ++ '/' ::
        renderCompsL (dcompsL g t ++
          [(goSplitL base).2 ++ '_' :: fdigitL g t ++ '.' :: ext])) := by
  have b1 := hb.1
  have hfragne : fragL g t ≠ [] := by
    intro h
    rcases hg with hgc | hgc | hgc | hgc | hgc <;> subst hgc
    · rw [fragL_monthly] at h
      exact pad4L_ne_nil t.year b1 (List.append_eq_nil.1 h).1
    · rw [fragL_daily] at h
      exact pad4L_ne_nil t.year b1 (List.append_eq_nil.1 (List.append_eq_nil.1 h).1).1
    · rw [fragL_hourly] at h
      exact pad4L_ne_nil t.year b1
        (List.append_eq_nil.1 (List.append_eq_nil.1 (List.append_eq_nil.1 h).1).1).1
    · rw [fragL_minutely] at h
      exact pad4L_ne_nil t.year b1
        (List.append_eq_nil.1 (List.append_eq_nil.1
          (List.append_eq_nil.1 (List.append_eq_nil.1 h).1).1).1).1
    · rw [fragL_secondly] at h
      exact pad4L_ne_nil t.year b1
        (List.append_eq_nil.1 (List.append_eq_nil.1 (List.append_eq_nil.1
          (List.append_eq_nil.1 (List.append_eq_nil.1 h).1).1).1).1).1
  rcases hg with hgc | hgc | hgc | hgc | hgc <;> subst hgc
  · rw [rollPathL]
    dsimp only
    rw [if_neg hfragne, if_pos rfl, goJoinL, if_neg (append_cons_ne_nil _ _ _),
      dcompsL_monthly, fdigitL_monthly]
    congr 1
    simp [renderCompsL]
  · rw [rollPathL]
    dsimp only
    rw [if_neg hfragne, if_neg (by decide), if_pos rfl, goJoinL,
      if_neg (append_cons_ne_nil _ _ _), dcompsL_daily, fdigitL_daily]
    congr 1
    simp [renderCompsL]
  · rw [rollPathL]
    dsimp only
    rw [if_neg hfragne, if_neg (by decide), if_neg (by decide), if_pos rfl,
      goJoinL, if_neg (append_cons_ne_nil _ _ _), dcompsL_hourly, fdigitL_hourly]
    congr 1
    simp [renderCompsL]
  · rw [rollPathL]
    dsimp only
    rw [if_neg hfragne, if_neg (by decide), if_neg (by decide), if_neg (by decide),
      if_pos rfl, goJoinL, if_neg (append_cons_ne_nil _ _ _), dcompsL_minutely,
      fdigitL_minutely]
    congr 1
    simp [renderCompsL]
  · rw [rollPathL]
    dsimp only
    rw [if_neg hfragne, if_neg (by decide), if_neg (by decide), if_neg (by decide),
      if_neg (by decide), if_pos rfl, goJoinL, if_neg (append_cons_ne_nil _ _ _),
      dcompsL_secondly, fdigitL_secondly]
    congr 1
    simp [renderCompsL]

theorem filename_comp_facts (stem ext f : List Char) (hstem : '/' ∉ stem)
    (hext : '/' ∉ ext) (hf : f.length = 2) (hsf : '/' ∉ f) :
    goodComp (stem ++ '_' :: f ++ '.' :: ext) ∧
      '/' ∉ stem ++ '_' :: f ++ '.' :: ext := by
  constructor
  · apply goodComp_of_length
    simp [List.length_append, hf]
    omega
  · intro hm
    rcases List.mem_append.1 hm with hm | hm
    · rcases List.mem_append.1 hm with hm | hm
      · exact hstem hm
      rcases List.mem_cons.1 hm with hm | hm
      · exact absurd hm (by decide)
      · exact hsf hm
    · rcases List.mem_cons.1 hm with hm | hm
      · exact absurd hm (by decide)
      · exact hext hm

theorem structured_inj (dir stem ext : List Char) (hstem : '/' ∉ stem)
    (hext : '/' ∉ ext) (d1 d2 : List (List Char)) (f1 f2 : List Char)
    (hg1 : ∀ c ∈ d1, goodComp c ∧ '/' ∉ c)
    (hg2 : ∀ c ∈ d2, goodComp c ∧ '/' ∉ c)
    (hf1 : f1.length = 2) (hf2 : f2.length = 2)
    (hsf1 : '/' ∉ f1) (hsf2 : '/' ∉ f2)
    (hdlen : d1.length = d2.length)
    (heq : cleanL (dir ++ '/' ::
             renderCompsL (d1 ++ [stem ++ '_' :: f1 ++ '.' :: ext])) =
           cleanL (dir ++ '/' ::
             renderCompsL (d2 ++ [stem ++ '_' :: f2 ++ '.' :: ext]))) :
    d1 = d2 ∧ f1 = f2 := by
  obtain ⟨hfn1g, hfn1s⟩ := filename_comp_facts stem ext f1 hstem hext hf1 hsf1
  obtain ⟨hfn2g, hfn2s⟩ := filename_comp_facts stem ext f2 hstem hext hf2 hsf2
  have hcomps := cleanL_structured_inj dir
    (d1 ++ [stem ++ '_' :: f1 ++ '.' :: ext])
    (d2 ++ [stem ++ '_' :: f2 ++ '.' :: ext])
    (by
      intro c hc
      rcases List.mem_append.1 hc with hc | hc
      · exact (hg1 c hc).1
      · rw [List.mem_singleton.1 hc]; exact hfn1g)
    (by
      intro c hc
      rcases List.mem_append.1 hc with hc | hc
      · exact (hg1 c hc).2
      · rw [List.mem_singleton.1 hc]; exact hfn1s)
    (by simp)
    (by
      intro c hc
      rcases List.mem_append.1 hc with hc | hc
      · exact (hg2 c hc).1
      · rw [List.mem_singleton.1 hc]; exact hfn2g)
    (by
      intro c hc
      rcases List.mem_append.1 hc with hc | hc
      · exact (hg2 c hc).2
      · rw [List.mem_singleton.1 hc]; exact hfn2s)
    (by simp)
    heq
  obtain ⟨hd, hfn⟩ := List.append_inj hcomps hdlen
  refine ⟨hd, ?_⟩
  have hfn' : stem ++ '_' :: f1 ++ '.' :: ext = stem ++ '_' :: f2 ++ '.' :: ext := by
    simpa using hfn
  have h1 : stem ++ '_' :: f1 = stem ++ '_' :: f2 :=
    List.append_cancel_right hfn'
  have h2 : ('_' :: f1 : List Char) = '_' :: f2 :=
    List.append_cancel_left h1
  simpa using h2

theorem goSplitL_snd_no_slash (p : List Char) : '/' ∉ (goSplitL p).2 := by
  intro hm
  rw [goSplitL] at hm
  dsimp only at hm
  rw [List.mem_reverse] at hm
  have := List.mem_takeWhile_imp hm
  simp at this

theorem rollPathL_inj (base ext : List Char) (g : String) (t1 t2 : GoTime)
    (hg : isRollingLayout g) (hb1 : tmBounds t1) (hb2 : tmBounds t2)
    (hext : '/' ∉ ext)
    (heq : rollPathL base ext g t1 = rollPathL base ext g t2) :
    fragL g t1 = fragL g t2 := by
  rw [rollPathL_structured base ext g t1 hg hb1,
      rollPathL_structured base ext g t2 hg hb2] at heq
  obtain ⟨hd, hf⟩ := structured_inj (goSplitL base).1 (goSplitL base).2 ext
    (goSplitL_snd_no_slash base) hext
    (dcompsL g t1) (dcompsL g t2) (fdigitL g t1) (fdigitL g t2)
    (dcompsL_facts g t1 hg hb1) (dcompsL_facts g t2 hg hb2)
    (fdigitL_length g t1 hg hb1) (fdigitL_length g t2 hg hb2)
    (fdigitL_no_slash g t1 hg hb1) (fdigitL_no_slash g t2 hg hb2)
    (dcompsL_length g t1 t2 hg) heq
  rw [fragL_flatten g t1 hg, fragL_flatten g t2 hg, hd, hf]

/-- `roll` with fault-free I/O recomputes whenever no file is open OR the open
file's fragment differs from the fragment for `now`: it closes any open file,
records the new fragment and opens the rotation namer's path for `now`. -/
theorem roll_recompute (s : RollingFile) (now : GoTime)
    (h : s.fileOpen = false ∨ s.fileFrag ≠ timeFormat s.rolling now) :
    RollingFile.roll false now s = (true,
      { s with fileOpen := true, fileFrag := timeFormat s.rolling now,
               filePath := rollPath s.basePath s.fileExt s.rolling now }) := by
  have hc : ¬ (s.fileOpen = true ∧ timeFormat s.rolling now = s.fileFrag) := by
    rintro ⟨hopen, hfr⟩
    rcases h with h | h
    · simp [h] at hopen
    · exact h hfr.symm
  rw [RollingFile.roll, if_neg hc]
  rfl

/-- C5: for every rolling layout g and realistic times t1, t2 whose
g-fragments differ, the rotation namer computes two distinct file paths.
Whenever the worker writes at time t2 and the recomputed t2-fragment does not
match the currently open file (no file open, or a file from an older fragment
such as t1's still open), `writeBuffer` reopens exactly the namer's path for
t2, appends the bytes there and records t2's fragment; conversely, while the
recomputed fragment equals the open file's fragment, `roll` reuses the open
file unchanged. -/
theorem rotation_distinct_paths (g base ext : String) (t1 t2 : GoTime)
    (s s2 : RollingFile) (f : Bool) (now : GoTime) (b : List Nat)
    (hg : isRollingLayout g) (hb1 : tmBounds t1) (hb2 : tmBounds t2)
    (hext : '/' ∉ ext.data)
    (hfrag : timeFormat g t1 ≠ timeFormat g t2)
    (hs1 : s.fileOpen = true) (hs2 : s.fileFrag = timeFormat s.rolling now)
    (ho : s2.fileOpen = false ∨ s2.fileFrag ≠ timeFormat g t2)
    (hbp : s2.basePath = base) (hex : s2.fileExt = ext)
    (hrg : s2.rolling = g) (hbne : b ≠ []) :
    rollPath base ext g t1 ≠ rollPath base ext g t2 ∧
    RollingFile.roll f now s = (true, s) ∧
    (RollingFile.writeBuffer false t2 s2 b).filePath = rollPath base ext g t2 ∧
    (RollingFile.writeBuffer false t2 s2 b).files =
      writeFS s2.files (rollPath base ext g t2) b ∧
    (RollingFile.writeBuffer false t2 s2 b).fileOpen = true ∧
    (RollingFile.writeBuffer false t2 s2 b).fileFrag = timeFormat g t2 := by
  have hpath : rollPath base ext g t1 ≠ rollPath base ext g t2 := by
    intro heq
    have heqL : rollPathL base.data ext.data g t1 = rollPathL base.data ext.data g t2 :=
      congrArg String.data heq
    have := rollPathL_inj base.data ext.data g t1 t2 hg hb1 hb2 hext heqL
    exact hfrag (congrArg String.mk this)
  have hrollf := roll_recompute s2 t2 (by rw [hrg]; exact ho)
  obtain ⟨w1, w2, w3, w4, w5, w6, w7, w8, w9⟩ :=
    RollingFile.writeBuffer_nofail s2 t2 b hbne
  have hfp : (RollingFile.roll false t2 s2).2.filePath =
      rollPath base ext g t2 := by
    rw [hrollf]
    dsimp only
    rw [hbp, hex, hrg]
  refine ⟨hpath, RollingFile.roll_reuse s f now hs1 hs2, ?_, ?_, w1, ?_⟩
  · rw [w3, hfp]
  · rw [w4, hfp]
  · rw [w2, hrg]

def t11 : GoTime := ⟨2024, 1, 15, 11, 0, 0⟩

/-- A writer state whose open file is the 10-o'clock hourly file. -/
def openState : RollingFile :=
  { appState with fileOpen := true, fileFrag := "2024011510",
                  filePath := "/logs/202401/15/app_10.log" }

theorem rotation_distinct_paths_w :
    rollPath "/logs/app" "log" HourlyRolling t10 ≠
      rollPath "/logs/app" "log" HourlyRolling t11 ∧
    RollingFile.roll false t10 openState = (true, openState) ∧
    (RollingFile.writeBuffer false t11 openState [67]).filePath =
      rollPath "/logs/app" "log" HourlyRolling t11 ∧
    (RollingFile.writeBuffer false t11 openState [67]).files =
      writeFS openState.files (rollPath "/logs/app" "log" HourlyRolling t11) [67] ∧
    (RollingFile.writeBuffer false t11 openState [67]).fileOpen = true ∧
    (RollingFile.writeBuffer false t11 openState [67]).fileFrag =
      timeFormat HourlyRolling t11 :=
  rotation_distinct_paths HourlyRolling "/logs/app" "log" t10 t11 openState
    openState false t10 [67] (by decide) (by decide) (by decide) (by decide)
    (by decide) rfl (by decide) (Or.inr (by decide)) rfl rfl rfl (by decide)

/-- A writer state holding no current page (as right after a detach or a
flush), from which the next write acquires a fresh buffer from the pool. -/
def drainedState : RollingFile := { appState with current := none }

/-- C8: after every successful `Write` returns — whether it appended to an
existing current page or to a freshly acquired one — the retained current
page holds at most `logPageCacheByteSize = 4096` bytes: exactly when the
append pushes the page past the threshold, the whole page is detached onto
the full-page channel, whose capacity is `logPageNumber + 1 = 3`. -/
theorem Write_detaches_full_page (s : RollingFile) (b : List Nat)
    (h1 : s.closed = false)
    (h2 : s.current.isSome = true ∨ s.poolCount ≤ (bpoolSize : Int)) :
    (((RollingFile.Write s b).2).current.getD []).length ≤ logPageCacheByteSize ∧
    ((s.current.getD [] ++ b).length > logPageCacheByteSize →
      (RollingFile.Write s b).2.current = none ∧
      (RollingFile.Write s b).2.fullBuffer =
        s.fullBuffer ++ [s.current.getD [] ++ b]) ∧
    ((s.current.getD [] ++ b).length ≤ logPageCacheByteSize →
      (RollingFile.Write s b).2.current = some (s.current.getD [] ++ b)) ∧
    fullBufferCap = logPageNumber + 1 ∧ fullBufferCap = 3 := by
  cases hcur : s.current with
  | some cur =>
    simp only [hcur, Option.getD_some]
    by_cases h3 : (cur ++ b).length > logPageCacheByteSize
    · rw [Write_eq_detach s b cur h1 hcur h3]
      refine ⟨by simp, fun _ => ⟨rfl, rfl⟩, fun hle => absurd h3 (by omega), rfl, rfl⟩
    · rw [Write_eq_keep s b cur h1 hcur h3]
      refine ⟨by simp at h3 ⊢; omega, fun hgt => absurd hgt h3, fun _ => rfl, rfl, rfl⟩
  | none =>
    have hpool : ¬ s.poolCount > (bpoolSize : Int) := by
      rcases h2 with h2 | h2
      · rw [hcur] at h2
        simp at h2
      · omega
    simp only [hcur, Option.getD_none, List.nil_append]
    by_cases h3 : b.length > logPageCacheByteSize
    · rw [RollingFile.Write_eq_detach_fresh s b h1 hcur hpool h3]
      refine ⟨by simp, fun _ => ⟨rfl, rfl⟩, fun hle => absurd h3 (by omega), rfl, rfl⟩
    · rw [RollingFile.Write_eq_keep_fresh s b h1 hcur hpool h3]
      refine ⟨by simp at h3 ⊢; omega, fun hgt => absurd hgt h3, fun _ => rfl, rfl, rfl⟩

theorem Write_detaches_full_page_w :
    (((RollingFile.Write drainedState [8]).2).current.getD []).length ≤
      logPageCacheByteSize ∧
    ((drainedState.current.getD [] ++ [8]).length > logPageCacheByteSize →
      (RollingFile.Write drainedState [8]).2.current = none ∧
      (RollingFile.Write drainedState [8]).2.fullBuffer =
        drainedState.fullBuffer ++ [drainedState.current.getD [] ++ [8]]) ∧
    ((drainedState.current.getD [] ++ [8]).length ≤ logPageCacheByteSize →
      (RollingFile.Write drainedState [8]).2.current =
        some (drainedState.current.getD [] ++ [8])) ∧
    fullBufferCap = logPageNumber + 1 ∧ fullBufferCap = 3 :=
  Write_detaches_full_page drainedState [8] rfl (Or.inr (by decide))
